import Mathlib

/- Shallow embedding of the streaming RSI dashboard core
   (src/lib/websocket.ts together with src/lib/binance.ts).
   JavaScript numbers are modelled as rationals, JS Maps and plain objects
   as insertion-ordered association lists, and fallible computations as
   Option-valued functions. -/

/-- Trading signal labels produced by getRSISignal. -/
inductive Signal where
  | STRONG_BUY
  | BUY
  | NEUTRAL
  | SELL
  | STRONG_SELL
deriving DecidableEq

/-- Signal classification from an RSI value (getRSISignal in binance.ts).
The JavaScript guard "if (!rsi)" is a truthy check: it sends both null and
the number 0 to NEUTRAL. -/
def getRSISignal (rsi : Option ℚ) : Signal :=
  match rsi with
  | none => .NEUTRAL
  | some r =>
    if r = 0 then .NEUTRAL
    else if r ≤ 20 then .STRONG_BUY
    else if r ≤ 30 then .BUY
    else if r ≥ 80 then .STRONG_SELL
    else if r ≥ 70 then .SELL
    else .NEUTRAL

/-- Rounding to two decimal places, modelling parseFloat(x.toFixed(2)) of
a nonnegative JavaScript number (toFixed rounds to nearest, half up). -/
def round2 (q : ℚ) : ℚ :=
  ((round (q * 100) : ℤ) : ℚ) / 100

/-- First-difference series of a close sequence: changes[i] is
closes[i+1] - closes[i] (the loop building the changes array in wilderRSI). -/
def changesOf (closes : List ℚ) : List ℚ :=
  List.zipWith (fun b a => b - a) closes.tail closes

/-- Seed averages of wilderRSI: simple means of gains and losses over the
first period differences.  A change c contributes c to the gain sum when
c is positive and -c to the loss sum otherwise. -/
def seedAvgs (changes : List ℚ) (period : Nat) : ℚ × ℚ :=
  (((changes.take period).map (fun c => if 0 < c then c else 0)).sum / (period : ℚ),
   ((changes.take period).map (fun c => if 0 < c then 0 else -c)).sum / (period : ℚ))

/-- One step of Wilder smoothing applied to the pair (avgGain, avgLoss). -/
def smoothStep (period : Nat) (p : ℚ × ℚ) (c : ℚ) : ℚ × ℚ :=
  ((p.1 * ((period : ℚ) - 1) + (if 0 < c then c else 0)) / (period : ℚ),
   (p.2 * ((period : ℚ) - 1) + (if c < 0 then -c else 0)) / (period : ℚ))

/-- Final (avgGain, avgLoss) pair of wilderRSI: seed averages over the first
period changes, then Wilder smoothing over the remaining changes. -/
def wilderAvgs (closes : List ℚ) (period : Nat) : ℚ × ℚ :=
  let changes := changesOf closes
  (changes.drop period).foldl (smoothStep period) (seedAvgs changes period)

/-- Wilder RSI (wilderRSI in binance.ts, the version with range validation).
Returns none for fewer than period + 1 closes, 100 when the average loss is
zero, and otherwise the rounded oscillator value, which is validated to lie
in the range 0 to 100 and replaced by none when it does not. -/
def wilderRSI (closes : List ℚ) (period : Nat := 14) : Option ℚ :=
  if closes.length < period + 1 then none
  else
    let avgs := wilderAvgs closes period
    if avgs.2 = 0 then some 100
    else
      let rs := avgs.1 / avgs.2
      let rsi := round2 (100 - 100 / (1 + rs))
      if rsi < 0 ∨ rsi > 100 then none else some rsi

/-- Snapshot entry for one instrument (the TradingPair record). -/
structure TradingPair where
  symbol : String
  price : ℚ
  volume24h : ℚ
  change24h : ℚ
  high24h : ℚ
  low24h : ℚ
  rsi1h : Option ℚ
  rsi4h : Option ℚ
  rsi1d : Option ℚ
  signal : Signal
deriving DecidableEq

/-- Comparator used on snapshot entries: the JavaScript callback
(a, b) => b.volume24h - a.volume24h sorts by 24h volume descending. -/
def volGE (a b : TradingPair) : Prop :=
  b.volume24h ≤ a.volume24h

instance : IsTotal TradingPair volGE :=
  ⟨fun a b => le_total b.volume24h a.volume24h⟩

instance : IsTrans TradingPair volGE :=
  ⟨fun _ _ _ hab hbc => le_trans hbc hab⟩

instance : DecidableRel volGE :=
  fun a b => inferInstanceAs (Decidable (b.volume24h ≤ a.volume24h))

/-- Stable sort by 24h volume descending, modelling
Array.prototype.sort((a, b) => b.volume24h - a.volume24h), which is a
stable sort. -/
def sortByVolumeDesc (l : List TradingPair) : List TradingPair :=
  List.insertionSort volGE l

/-- One stored closed-candle point: closing price and close timestamp. -/
structure Candle where
  close : ℚ
  timestamp : ℤ
deriving DecidableEq

/-- Per-symbol candle history: interval key to list of candles, in
insertion order (the inner object of klineHistory). -/
abbrev IntervalHistory := List (String × List Candle)

/-- The candle history store klineHistory: symbol to per-interval history,
in insertion order. -/
abbrev KlineHistory := List (String × IntervalHistory)

/-- Lookup of an interval key in a per-symbol history object. -/
def lookupIn : IntervalHistory → String → Option (List Candle)
  | [], _ => none
  | (k, v) :: t, i => if k = i then some v else lookupIn t i

/-- Lookup of a symbol key in the candle history store. -/
def lookupSym : KlineHistory → String → Option IntervalHistory
  | [], _ => none
  | (k, ih) :: t, s => if k = s then some ih else lookupSym t s

/-- Candle list stored for a symbol and interval, with an absent symbol or
interval reading as the empty list. -/
def lookupHist (h : KlineHistory) (s i : String) : List Candle :=
  match lookupSym h s with
  | none => []
  | some ih => (lookupIn ih i).getD []

/-- Assignment of an interval key inside a per-symbol history object. -/
def setIn : IntervalHistory → String → List Candle → IntervalHistory
  | [], i, l => [(i, l)]
  | (k, v) :: t, i, l => if k = i then (k, l) :: t else (k, v) :: setIn t i l

/-- Assignment of a symbol and interval cell in the candle history store,
creating the symbol entry when absent. -/
def setHist : KlineHistory → String → String → List Candle → KlineHistory
  | [], s, i, l => [(s, setIn [] i l)]
  | (k, ih) :: t, s, i, l =>
    if k = s then (k, setIn ih i l) :: t else (k, ih) :: setHist t s i l

/-- A kline stream message, keeping the fields processKlineData reads:
symbol, interval, close price, close time and the closed flag. -/
structure KlineMsg where
  s : String
  i : String
  c : ℚ
  T : ℤ
  x : Bool
deriving DecidableEq

/-- Handler for one candle message (processKlineData): an unclosed candle is
ignored; a closed one is appended to the symbol and interval history, which
is then truncated with slice(-100) whenever its length exceeds 100. -/
def processKlineData (h : KlineHistory) (m : KlineMsg) : KlineHistory :=
  if m.x = false then h
  else
    let cur := lookupHist h m.s m.i
    let h2 := cur ++ [(⟨m.c, m.T⟩ : Candle)]
    let h3 := if 100 < h2.length then h2.drop (h2.length - 100) else h2
    setHist h m.s m.i h3

/-- Result record of getRSIForSymbol: one optional RSI per timeframe. -/
structure RSIResult where
  rsi1h : Option ℚ
  rsi4h : Option ℚ
  rsi1d : Option ℚ
deriving DecidableEq

/-- Per-interval body of the loop in getRSIForSymbol: with at least 14
stored candles, the stored closes plus the live price (when present) are fed
to wilderRSI, and the result is kept only when it is non-null and lies in
the range 0 to 100. -/
def rsiForInterval (ih : IntervalHistory) (i : String) (currentPrice : Option ℚ) : Option ℚ :=
  let klines := (lookupIn ih i).getD []
  if 14 ≤ klines.length then
    let closes := klines.map (·.close)
    let closes2 := match currentPrice with
      | some p => closes ++ [p]
      | none => closes
    match wilderRSI closes2 14 with
    | some r => if 0 ≤ r ∧ r ≤ 100 then some r else none
    | none => none
  else none

/-- Push-path RSI recomputation for one symbol (getRSIForSymbol): absent
symbol history yields all-null, otherwise each of the three timeframes is
computed by rsiForInterval. -/
def getRSIForSymbol (h : KlineHistory) (symbol : String) (currentPrice : Option ℚ) : RSIResult :=
  match lookupSym h symbol with
  | none => ⟨none, none, none⟩
  | some ih =>
    ⟨rsiForInterval ih "1h" currentPrice,
     rsiForInterval ih "4h" currentPrice,
     rsiForInterval ih "1d" currentPrice⟩

/-- Missing-indicator test used by ensureRSIForCoins. -/
def needsRSI (c : TradingPair) : Bool :=
  c.rsi1h.isNone || c.rsi4h.isNone || c.rsi1d.isNone

/-- In-place update of one coin object after a fallback recompute: the three
RSI fields are refreshed from the history store using the live price, and the
signal is rederived from the one-day RSI. -/
def updateCoinRSI (h : KlineHistory) (c : TradingPair) : TradingPair :=
  let t := getRSIForSymbol h c.symbol (some c.price)
  { c with rsi1h := t.rsi1h, rsi4h := t.rsi4h, rsi1d := t.rsi1d,
           signal := getRSISignal t.rsi1d }

/-- Oracle standing for the historical-klines REST endpoint: for a symbol
and interval it returns the fetched close prices, or none when the request
fails or the response is not ok. -/
abbrev KlinesOracle := String → String → Option (List ℚ)

/-- Fallback seeding for one symbol (calculateRSIViaREST): for each of the
three intervals, a fetched batch of at least 15 closes whose RSI is non-null
and in range replaces the stored history for that cell, with approximate
timestamps derived from the current time. -/
def calculateRSIViaREST (oracle : KlinesOracle) (now : ℤ) (symbol : String)
    (h : KlineHistory) : KlineHistory :=
  ["1h", "4h", "1d"].foldl (fun h i =>
    match oracle symbol i with
    | none => h
    | some closes =>
      if 15 ≤ closes.length then
        (match wilderRSI closes 14 with
        | some r =>
          if 0 ≤ r ∧ r ≤ 100 then
            setHist h symbol i ((closes.enum).map (fun p =>
              ⟨p.2, now - ((closes.length - 1 - p.1 : ℤ) * 3600000)⟩))
          else h
        | none => h)
      else h) h

/-- Query-side recompute (ensureRSIForCoins): coins missing at least one
RSI value trigger a REST seed of the history store and are then updated in
place from the refreshed store. -/
def ensureRSIForCoins (oracle : KlinesOracle) (now : ℤ)
    (coins : List TradingPair) (h : KlineHistory) : KlineHistory × List TradingPair :=
  let needing := coins.filter needsRSI
  if needing = [] then (h, coins)
  else
    let h2 := needing.foldl (fun h c => calculateRSIViaREST oracle now c.symbol h) h
    (h2, coins.map (fun c => if needsRSI c then updateCoinRSI h2 c else c))

/-- Engine state carried by the manager: the lifecycle flag and the three
stores the snapshot queries touch. -/
structure EngineState where
  initialized : Bool
  spotData : List TradingPair
  futuresData : List TradingPair
  klineHistory : KlineHistory
deriving DecidableEq

/-- Snapshot query for the spot segment (getSpotData): initializes the
manager when needed, sorts the spot store by volume descending, truncates to
the limit, runs ensureRSIForCoins on the result, and returns the list.  The
returned entries are the store objects themselves, so the in-place updates
of ensureRSIForCoins are reflected in the store as well. -/
def getSpotData (oracle : KlinesOracle) (now : ℤ) (st : EngineState)
    (limit : Nat) : EngineState × List TradingPair :=
  let st1 := if st.initialized then st else { st with initialized := true }
  let sorted := (sortByVolumeDesc st1.spotData).take limit
  let pr := ensureRSIForCoins oracle now sorted st1.klineHistory
  ({ st1 with
      klineHistory := pr.1,
      spotData := st1.spotData.map (fun c =>
        if c ∈ sorted ∧ needsRSI c = true then updateCoinRSI pr.1 c else c) },
   pr.2)

/-- Snapshot query for the futures segment (getFuturesData), identical to
getSpotData but reading the futures store. -/
def getFuturesData (oracle : KlinesOracle) (now : ℤ) (st : EngineState)
    (limit : Nat) : EngineState × List TradingPair :=
  let st1 := if st.initialized then st else { st with initialized := true }
  let sorted := (sortByVolumeDesc st1.futuresData).take limit
  let pr := ensureRSIForCoins oracle now sorted st1.klineHistory
  ({ st1 with
      klineHistory := pr.1,
      futuresData := st1.futuresData.map (fun c =>
        if c ∈ sorted ∧ needsRSI c = true then updateCoinRSI pr.1 c else c) },
   pr.2)

/-- Top symbols of one segment by volume: sort the store by volume
descending, keep the first 15, project to symbols. -/
def topSymbolsByVolume (pairs : List TradingPair) : List String :=
  ((sortByVolumeDesc pairs).take 15).map (·.symbol)

/-- Insertion-order deduplication, modelling new Set([...a, ...b]). -/
def setUnionList (l : List String) : List String :=
  l.foldl (fun acc x => if x ∈ acc then acc else acc ++ [x]) []

/-- Set equality test of the manager (setsEqual): equal sizes and the first
set contained in the second. -/
def setsEqual (s1 s2 : List String) : Bool :=
  s1.length == s2.length && s1.all (fun x => s2.contains x)

/-- Flattened stream identifier list built by connectKlineStreamsForSymbols:
the first 10 symbols, three kline intervals each. -/
def klineStreamsFor (symbols : List String) : List String :=
  ((symbols.take 10).map (fun s =>
    ["1h", "4h", "1d"].map (fun i => s.toLower ++ "@kline_" ++ i))).flatten

/-- Structural worker for chunk30; the fuel bounds the iteration count of
the source loop, which advances by 30 and thus runs at most length times. -/
def chunk30Go : Nat → List String → List (List String)
  | _, [] => []
  | 0, _ :: _ => []
  | fuel + 1, x :: xs => ((x :: xs).take 30) :: chunk30Go fuel ((x :: xs).drop 30)

/-- Partition of the stream list into groups of at most 30 identifiers
(the for-loop advancing by 30 over allStreams). -/
def chunk30 (l : List String) : List (List String) :=
  chunk30Go l.length l

/-- Kline-connection state of the manager: the active subscription set and
the stream groups of the open candle connections. -/
structure RebalanceState where
  currentTopSymbols : List String
  klineGroups : List (List String)
deriving DecidableEq

/-- Connection build of connectKlineStreamsForSymbols: no-op on an empty
symbol list, otherwise one connection per chunk of 30 stream identifiers. -/
def connectKlineStreamsForSymbols (symbols : List String) (st : RebalanceState) : RebalanceState :=
  if symbols = [] then st
  else { st with klineGroups := chunk30 (klineStreamsFor symbols) }

/-- One rebalance pass (updateKlineStreamsBasedOnVolume): take the top 15
of each segment, union with deduplication, and when the union is nonempty
and differs from the active set, close every candle connection and connect
groups for the new set. -/
def updateKlineStreamsBasedOnVolume (spot futures : List TradingPair)
    (st : RebalanceState) : RebalanceState :=
  let newTopSymbols := setUnionList (topSymbolsByVolume spot ++ topSymbolsByVolume futures)
  if newTopSymbols.length = 0 then st
  else if setsEqual st.currentTopSymbols newTopSymbols then st
  else
    connectKlineStreamsForSymbols newTopSymbols
      { currentTopSymbols := newTopSymbols, klineGroups := [] }

/-- Insertion into the reconnect-timeout map (Map.prototype.set on keys). -/
def timeoutMapSet (m : List String) (k : String) : List String :=
  if k ∈ m then m else m ++ [k]

/-- Deletion from the reconnect-timeout map (clearReconnectTimeout). -/
def timeoutMapDelete (m : List String) (k : String) : List String :=
  m.filter (fun x => x ≠ k)

/-- Delay computed by scheduleReconnect: the exponent is the current size of
the reconnectTimeouts map, capped at maxReconnectDelay = 30000 with
initialReconnectDelay = 1000. -/
def scheduleReconnectDelay (m : List String) : Nat :=
  min (1000 * 2 ^ m.length) 30000

/-- Connection lifecycle events seen by the supervisor: an unexpected close
(which schedules a reconnect) or a successful open (which clears the
connection's pending timeout). -/
inductive ConnEvent where
  | close (t : String)
  | openOk (t : String)

/-- Run of a ticker connection event trace over the reconnect bookkeeping,
returning the final timeout-map keys and the list of scheduled delays in
order.  A fired timeout never removes its map entry; only a successful open
does. -/
def runEvents (evs : List ConnEvent) : List String × List Nat :=
  evs.foldl (fun acc e =>
    match e with
    | .close t => (timeoutMapSet acc.1 t, acc.2 ++ [scheduleReconnectDelay acc.1])
    | .openOk t => (timeoutMapDelete acc.1 t, acc.2)) ([], [])



/-- Ordering the specification claims for snapshot listings: volume
descending with ties broken by symbol ascending. -/
def claimedSnapshotOrder (a b : TradingPair) : Prop :=
  b.volume24h < a.volume24h ∨ (a.volume24h = b.volume24h ∧ a.symbol ≤ b.symbol)

instance : DecidableRel claimedSnapshotOrder :=
  fun _ _ => inferInstanceAs (Decidable (_ ∨ _))

/-- Concrete snapshot entry used in counterexamples: symbol AAAUSDT with
24h volume 5 and complete RSI coverage. -/
def pairAAA : TradingPair :=
  ⟨"AAAUSDT", 1, 5, 0, 0, 0, some 50, some 50, some 50, .NEUTRAL⟩

/-- Concrete snapshot entry used in counterexamples: symbol BBBUSDT with
24h volume 5 and complete RSI coverage. -/
def pairBBB : TradingPair :=
  ⟨"BBBUSDT", 1, 5, 0, 0, 0, some 50, some 50, some 50, .NEUTRAL⟩

/-- Concrete snapshot entry with complete RSI coverage, for the query frame
witness. -/
def pairDone : TradingPair :=
  ⟨"BTCUSDT", 2, 7, 0, 0, 0, some 50, some 50, some 50, .NEUTRAL⟩

/-- Concrete snapshot entry lacking RSI coverage, for the rebalance
witness. -/
def pairBTC : TradingPair :=
  ⟨"BTCUSDT", 1, 9, 0, 0, 0, none, none, none, .NEUTRAL⟩

/- Lemmas about the indicator engine. -/

/-- Unfolded form of wilderRSI. -/
theorem wilderRSI_eq (closes : List ℚ) (period : Nat) :
    wilderRSI closes period =
      if closes.length < period + 1 then none
      else if (wilderAvgs closes period).2 = 0 then some 100
      else if round2 (100 - 100 / (1 + (wilderAvgs closes period).1 / (wilderAvgs closes period).2)) < 0
          ∨ round2 (100 - 100 / (1 + (wilderAvgs closes period).1 / (wilderAvgs closes period).2)) > 100
        then none
        else some (round2 (100 - 100 / (1 + (wilderAvgs closes period).1 / (wilderAvgs closes period).2))) :=
  rfl

/-- Unfolded form of wilderAvgs. -/
theorem wilderAvgs_eq (closes : List ℚ) (period : Nat) :
    wilderAvgs closes period =
      ((changesOf closes).drop period).foldl (smoothStep period)
        (seedAvgs (changesOf closes) period) :=
  rfl

/-- First component of one smoothing step. -/
theorem smoothStep_fst (p : ℚ × ℚ) (c : ℚ) :
    (smoothStep 14 p c).1 = (p.1 * (((14:Nat) : ℚ) - 1) + (if 0 < c then c else 0)) / ((14:Nat) : ℚ) :=
  rfl

/-- Second component of one smoothing step. -/
theorem smoothStep_snd (p : ℚ × ℚ) (c : ℚ) :
    (smoothStep 14 p c).2 = (p.2 * (((14:Nat) : ℚ) - 1) + (if c < 0 then -c else 0)) / ((14:Nat) : ℚ) :=
  rfl

/-- One smoothing step preserves nonnegativity of both averages. -/
theorem smoothStep_nonneg (p : ℚ × ℚ) (c : ℚ) (h1 : 0 ≤ p.1) (h2 : 0 ≤ p.2) :
    0 ≤ (smoothStep 14 p c).1 ∧ 0 ≤ (smoothStep 14 p c).2 := by
  have hg : 0 ≤ (if 0 < c then c else 0) := by split <;> linarith
  have hl : 0 ≤ (if c < 0 then -c else 0) := by split <;> linarith
  constructor
  · rw [smoothStep_fst]
    apply div_nonneg _ (by norm_num)
    push_cast
    linarith
  · rw [smoothStep_snd]
    apply div_nonneg _ (by norm_num)
    push_cast
    linarith

/-- Wilder smoothing preserves nonnegativity of both averages. -/
theorem foldl_smoothStep_nonneg (l : List ℚ) :
    ∀ p : ℚ × ℚ, 0 ≤ p.1 → 0 ≤ p.2 →
      0 ≤ (l.foldl (smoothStep 14) p).1 ∧ 0 ≤ (l.foldl (smoothStep 14) p).2 := by
  induction l with
  | nil => intro p h1 h2; exact ⟨h1, h2⟩
  | cons c t IH =>
    intro p h1 h2
    have hs := smoothStep_nonneg p c h1 h2
    exact IH _ hs.1 hs.2

/-- The seed averages are nonnegative. -/
theorem seedAvgs_nonneg (changes : List ℚ) :
    0 ≤ (seedAvgs changes 14).1 ∧ 0 ≤ (seedAvgs changes 14).2 := by
  unfold seedAvgs
  constructor <;> refine div_nonneg (List.sum_nonneg ?_) (by positivity) <;>
    · intro x hx
      simp only [List.mem_map] at hx
      obtain ⟨c, _, rfl⟩ := hx
      split <;> linarith

/-- Both final Wilder averages are nonnegative. -/
theorem wilderAvgs_nonneg (closes : List ℚ) :
    0 ≤ (wilderAvgs closes 14).1 ∧ 0 ≤ (wilderAvgs closes 14).2 := by
  rw [wilderAvgs_eq]
  exact foldl_smoothStep_nonneg _ _ (seedAvgs_nonneg _).1 (seedAvgs_nonneg _).2

/-- Rounding to two decimals keeps a value of the half-open oscillator range
inside the closed range 0 to 100. -/
theorem round2_bounds (x : ℚ) (h0 : 0 ≤ x) (h1 : x < 100) :
    0 ≤ round2 x ∧ round2 x ≤ 100 := by
  unfold round2
  constructor
  · apply div_nonneg _ (by norm_num)
    have hz : (0 : ℤ) ≤ round (x * 100) := by
      rw [round_eq]
      apply Int.le_floor.mpr
      push_cast
      linarith
    exact_mod_cast hz
  · rw [div_le_iff₀ (by norm_num : (0:ℚ) < 100)]
    have hz : round (x * 100) ≤ (10000 : ℤ) := by
      rw [round_eq]
      have hlt : ⌊x * 100 + 1 / 2⌋ < (10001 : ℤ) := by
        apply Int.floor_lt.mpr
        push_cast
        linarith
      omega
    calc ((round (x * 100) : ℤ) : ℚ) ≤ ((10000 : ℤ) : ℚ) := by exact_mod_cast hz
      _ = 100 * 100 := by norm_num

/-- With at least 15 closes, wilderRSI always produces a value, and that
value lies in the range 0 to 100 (the range validation never fires). -/
theorem wilderRSI_defined (closes : List ℚ) (h : 15 ≤ closes.length) :
    ∃ r, wilderRSI closes 14 = some r ∧ 0 ≤ r ∧ r ≤ 100 := by
  rw [wilderRSI_eq, if_neg (by omega)]
  by_cases hz : (wilderAvgs closes 14).2 = 0
  · exact ⟨100, by rw [if_pos hz], by norm_num, by norm_num⟩
  · have hnn := wilderAvgs_nonneg closes
    have hpos : 0 < (wilderAvgs closes 14).2 := lt_of_le_of_ne hnn.2 (Ne.symm hz)
    have hrs0 : 0 ≤ (wilderAvgs closes 14).1 / (wilderAvgs closes 14).2 :=
      div_nonneg hnn.1 (le_of_lt hpos)
    have h1p : (0:ℚ) < 1 + (wilderAvgs closes 14).1 / (wilderAvgs closes 14).2 := by linarith
    have hx0 : 0 ≤ 100 - 100 / (1 + (wilderAvgs closes 14).1 / (wilderAvgs closes 14).2) := by
      have hle : 100 / (1 + (wilderAvgs closes 14).1 / (wilderAvgs closes 14).2) ≤ 100 := by
        rw [div_le_iff₀ h1p]; nlinarith
      linarith
    have hx1 : 100 - 100 / (1 + (wilderAvgs closes 14).1 / (wilderAvgs closes 14).2) < 100 := by
      have hgt : 0 < 100 / (1 + (wilderAvgs closes 14).1 / (wilderAvgs closes 14).2) :=
        div_pos (by norm_num) h1p
      linarith
    have hb := round2_bounds _ hx0 hx1
    refine ⟨_, ?_, hb.1, hb.2⟩
    rw [if_neg hz, if_neg (by push_neg; exact ⟨hb.1, hb.2⟩)]

/-- C7: computeOscillator (wilderRSI) is total and range-safe: any close
sequence shorter than period + 1 = 15 closes yields absent; every produced
value lies in the range 0 to 100; and when the final average loss is zero
the function returns exactly 100 without performing the RS division. -/
theorem wilderRSI_total_range :
    (∀ closes : List ℚ, closes.length < 15 → wilderRSI closes 14 = none) ∧
    (∀ (closes : List ℚ) (r : ℚ), wilderRSI closes 14 = some r → 0 ≤ r ∧ r ≤ 100) ∧
    (∀ closes : List ℚ, 15 ≤ closes.length → (wilderAvgs closes 14).2 = 0 →
      wilderRSI closes 14 = some 100) := by
  refine ⟨?_, ?_, ?_⟩
  · intro closes hlen
    rw [wilderRSI_eq, if_pos (by omega)]
  · intro closes r hsome
    rw [wilderRSI_eq] at hsome
    by_cases h1 : closes.length < 14 + 1
    · rw [if_pos h1] at hsome
      exact absurd hsome (by simp)
    · rw [if_neg h1] at hsome
      by_cases h2 : (wilderAvgs closes 14).2 = 0
      · rw [if_pos h2] at hsome
        have h100 : (100:ℚ) = r := by simpa using hsome
        subst h100
        norm_num
      · rw [if_neg h2] at hsome
        by_cases h3 : round2 (100 - 100 / (1 + (wilderAvgs closes 14).1 / (wilderAvgs closes 14).2)) < 0
            ∨ round2 (100 - 100 / (1 + (wilderAvgs closes 14).1 / (wilderAvgs closes 14).2)) > 100
        · rw [if_pos h3] at hsome
          exact absurd hsome (by simp)
        · rw [if_neg h3] at hsome
          push_neg at h3
          have hval : round2 (100 - 100 / (1 + (wilderAvgs closes 14).1 / (wilderAvgs closes 14).2)) = r := by
            simpa using hsome
          subst hval
          exact ⟨h3.1, h3.2⟩
  · intro closes hlen hz
    rw [wilderRSI_eq, if_neg (by omega), if_pos hz]

/-- Every change of a constant close sequence is zero. -/
theorem changesOf_replicate_nonneg (n : Nat) (a : ℚ) :
    ∀ c ∈ changesOf (List.replicate n a), 0 ≤ c := by
  induction n with
  | zero => simp [changesOf]
  | succ m IH =>
    cases m with
    | zero => simp [changesOf]
    | succ k =>
      intro c hc
      rw [List.replicate_succ, List.replicate_succ] at hc
      have hcc : changesOf (a :: a :: List.replicate k a) =
          (a - a) :: changesOf (a :: List.replicate k a) := rfl
      rw [hcc] at hc
      rcases List.mem_cons.mp hc with h | h
      · simp [h]
      · have := IH c (by rwa [List.replicate_succ])
        exact this

/-- Wilder smoothing keeps a zero average loss at zero when every remaining
change is nonnegative. -/
theorem foldl_smoothStep_loss_zero (l : List ℚ) :
    ∀ p : ℚ × ℚ, (∀ c ∈ l, 0 ≤ c) → p.2 = 0 → (l.foldl (smoothStep 14) p).2 = 0 := by
  induction l with
  | nil => intro p _ h2; exact h2
  | cons c t IH =>
    intro p hall h2
    apply IH
    · intro x hx; exact hall x (List.mem_cons_of_mem _ hx)
    · rw [smoothStep_snd, h2]
      have hc : ¬ (c < 0) := not_lt.mpr (hall c (List.mem_cons_self _ _))
      simp [hc]

/-- The seed average loss is zero when every change is nonnegative. -/
theorem seedAvgs_loss_zero (changes : List ℚ) (h : ∀ c ∈ changes, 0 ≤ c) :
    (seedAvgs changes 14).2 = 0 := by
  have hall : ∀ x ∈ (changes.take 14).map (fun c => if 0 < c then 0 else -c), x = 0 := by
    intro x hx
    simp only [List.mem_map] at hx
    obtain ⟨c, hc, rfl⟩ := hx
    have hc0 : 0 ≤ c := h c (List.take_subset _ _ hc)
    split
    · rfl
    · rename_i hcneg
      have : c = 0 := le_antisymm (not_lt.mp hcneg) hc0
      simp [this]
  show ((changes.take 14).map (fun c => if 0 < c then 0 else -c)).sum / ((14:Nat) : ℚ) = 0
  rw [List.sum_eq_zero hall, zero_div]

/-- The final Wilder average loss is zero whenever every change is
nonnegative. -/
theorem wilderAvgs_loss_zero (closes : List ℚ)
    (h : ∀ c ∈ changesOf closes, 0 ≤ c) : (wilderAvgs closes 14).2 = 0 := by
  rw [wilderAvgs_eq]
  apply foldl_smoothStep_loss_zero
  · intro c hc; exact h c (List.drop_subset _ _ hc)
  · exact seedAvgs_loss_zero _ (fun c hc => h c hc)

/-- Witness for C7 at concrete inputs. -/
theorem wilderRSI_total_range_witness :
    wilderRSI [] 14 = none ∧
    (0 ≤ (100:ℚ) ∧ (100:ℚ) ≤ 100) ∧
    wilderRSI (List.replicate 15 (1:ℚ)) 14 = some 100 :=
  ⟨wilderRSI_total_range.1 [] (by decide),
   wilderRSI_total_range.2.1 (List.replicate 15 (1:ℚ)) 100
     (wilderRSI_total_range.2.2 (List.replicate 15 (1:ℚ)) (by decide)
       (wilderAvgs_loss_zero _ (changesOf_replicate_nonneg 15 1))),
   wilderRSI_total_range.2.2 (List.replicate 15 (1:ℚ)) (by decide)
     (wilderAvgs_loss_zero _ (changesOf_replicate_nonneg 15 1))⟩

/-- Changes of a strictly increasing close sequence are positive. -/
theorem changesOf_pos_of_chain :
    ∀ closes : List ℚ, List.Chain' (· < ·) closes → ∀ c ∈ changesOf closes, 0 < c := by
  intro closes
  induction closes with
  | nil => intro _ c hc; simp [changesOf] at hc
  | cons a t IH =>
    cases t with
    | nil => intro _ c hc; simp [changesOf] at hc
    | cons b t2 =>
      intro hch c hc
      rw [List.chain'_cons] at hch
      have hcc : changesOf (a :: b :: t2) = (b - a) :: changesOf (b :: t2) := rfl
      rw [hcc] at hc
      rcases List.mem_cons.mp hc with h | h
      · subst h; linarith [hch.1]
      · exact IH hch.2 c h

/-- Changes of a strictly decreasing close sequence are negative. -/
theorem changesOf_neg_of_chain :
    ∀ closes : List ℚ, List.Chain' (· > ·) closes → ∀ c ∈ changesOf closes, c < 0 := by
  intro closes
  induction closes with
  | nil => intro _ c hc; simp [changesOf] at hc
  | cons a t IH =>
    cases t with
    | nil => intro _ c hc; simp [changesOf] at hc
    | cons b t2 =>
      intro hch c hc
      rw [List.chain'_cons] at hch
      have hcc : changesOf (a :: b :: t2) = (b - a) :: changesOf (b :: t2) := rfl
      rw [hcc] at hc
      rcases List.mem_cons.mp hc with h | h
      · subst h
        have : b < a := hch.1
        linarith
      · exact IH hch.2 c h

/-- Number of changes of a close sequence. -/
theorem changesOf_length (closes : List ℚ) :
    (changesOf closes).length = closes.length - 1 := by
  unfold changesOf
  rw [List.length_zipWith]
  cases closes <;> simp

/-- Wilder smoothing keeps a zero average gain at zero when every remaining
change is nonpositive. -/
theorem foldl_smoothStep_gain_zero (l : List ℚ) :
    ∀ p : ℚ × ℚ, (∀ c ∈ l, c ≤ 0) → p.1 = 0 → (l.foldl (smoothStep 14) p).1 = 0 := by
  induction l with
  | nil => intro p _ h1; exact h1
  | cons c t IH =>
    intro p hall h1
    apply IH
    · intro x hx; exact hall x (List.mem_cons_of_mem _ hx)
    · rw [smoothStep_fst, h1]
      have hc : ¬ (0 < c) := not_lt.mpr (hall c (List.mem_cons_self _ _))
      simp [hc]

/-- Wilder smoothing keeps a positive average loss positive. -/
theorem foldl_smoothStep_loss_pos (l : List ℚ) :
    ∀ p : ℚ × ℚ, 0 < p.2 → 0 < (l.foldl (smoothStep 14) p).2 := by
  induction l with
  | nil => intro p h; exact h
  | cons c t IH =>
    intro p h
    apply IH
    rw [smoothStep_snd]
    have hl : 0 ≤ (if c < 0 then -c else 0) := by split <;> linarith
    apply div_pos _ (by norm_num)
    push_cast
    linarith

/-- The seed average gain is zero when every change is nonpositive. -/
theorem seedAvgs_gain_zero (changes : List ℚ) (h : ∀ c ∈ changes, c ≤ 0) :
    (seedAvgs changes 14).1 = 0 := by
  have hall : ∀ x ∈ (changes.take 14).map (fun c => if 0 < c then c else 0), x = 0 := by
    intro x hx
    simp only [List.mem_map] at hx
    obtain ⟨c, hc, rfl⟩ := hx
    have hc0 : c ≤ 0 := h c (List.take_subset _ _ hc)
    split
    · rename_i hcpos; linarith
    · rfl
  show ((changes.take 14).map (fun c => if 0 < c then c else 0)).sum / ((14:Nat) : ℚ) = 0
  rw [List.sum_eq_zero hall, zero_div]

/-- The seed average loss is positive when every change is negative and at
least 14 changes exist. -/
theorem seedAvgs_loss_pos (changes : List ℚ) (h : ∀ c ∈ changes, c < 0)
    (hlen : 14 ≤ changes.length) : 0 < (seedAvgs changes 14).2 := by
  show 0 < ((changes.take 14).map (fun c => if 0 < c then 0 else -c)).sum / ((14:Nat) : ℚ)
  apply div_pos _ (by norm_num)
  apply List.sum_pos
  · intro x hx
    simp only [List.mem_map] at hx
    obtain ⟨c, hc, rfl⟩ := hx
    have hcneg : c < 0 := h c (List.take_subset _ _ hc)
    rw [if_neg (by linarith)]
    linarith
  · intro hnil
    rw [List.map_eq_nil_iff] at hnil
    have hlt : (changes.take 14).length = 14 := by
      rw [List.length_take]
      omega
    rw [hnil] at hlt
    simp at hlt

/-- C8: for every strictly increasing close sequence of length at least 15,
computeOscillator returns exactly 100; for every strictly decreasing close
sequence of length at least 15 it returns exactly 0 (a defined value). -/
theorem rsi_extremes (closes : List ℚ) (h15 : 15 ≤ closes.length) :
    (List.Chain' (· < ·) closes → wilderRSI closes 14 = some 100) ∧
    (List.Chain' (· > ·) closes → wilderRSI closes 14 = some 0) := by
  constructor
  · intro hch
    have hz : (wilderAvgs closes 14).2 = 0 :=
      wilderAvgs_loss_zero closes
        (fun c hc => le_of_lt (changesOf_pos_of_chain closes hch c hc))
    rw [wilderRSI_eq, if_neg (by omega), if_pos hz]
  · intro hch
    have hneg := changesOf_neg_of_chain closes hch
    have hga : (wilderAvgs closes 14).1 = 0 := by
      rw [wilderAvgs_eq]
      apply foldl_smoothStep_gain_zero
      · intro c hc; exact le_of_lt (hneg c (List.drop_subset _ _ hc))
      · exact seedAvgs_gain_zero _ (fun c hc => le_of_lt (hneg c hc))
    have hlp : 0 < (wilderAvgs closes 14).2 := by
      rw [wilderAvgs_eq]
      apply foldl_smoothStep_loss_pos
      apply seedAvgs_loss_pos _ hneg
      rw [changesOf_length]
      omega
    have hr0 : round2 (100 - 100 / (1 + (wilderAvgs closes 14).1 / (wilderAvgs closes 14).2)) = 0 := by
      rw [hga, zero_div]
      norm_num [round2]
    rw [wilderRSI_eq, if_neg (by omega), if_neg (by linarith), hr0]
    norm_num

/-- Witness for C8 at concrete monotone inputs. -/
theorem rsi_extremes_witness :
    wilderRSI [1, 2, 3, 4, 5, 6, 7, 8, 9, 10, 11, 12, 13, 14, 15] 14 = some 100 ∧
    wilderRSI [15, 14, 13, 12, 11, 10, 9, 8, 7, 6, 5, 4, 3, 2, 1] 14 = some 0 :=
  ⟨(rsi_extremes [1, 2, 3, 4, 5, 6, 7, 8, 9, 10, 11, 12, 13, 14, 15] (by decide)).1
     (by norm_num [List.chain'_cons]),
   (rsi_extremes [15, 14, 13, 12, 11, 10, 9, 8, 7, 6, 5, 4, 3, 2, 1] (by decide)).2
     (by norm_num [List.chain'_cons])⟩

/- Lemmas about the candle history store. -/

/-- Lookup after assignment inside one per-symbol object. -/
theorem lookupIn_setIn (ih : IntervalHistory) (i i' : String) (l : List Candle) :
    lookupIn (setIn ih i l) i' = if i' = i then some l else lookupIn ih i' := by
  induction ih with
  | nil =>
    by_cases h : i' = i
    · subst h; simp [setIn, lookupIn]
    · have h2 : ¬ i = i' := fun hh => h hh.symm
      simp [setIn, lookupIn, h, h2]
  | cons kv t IH =>
    obtain ⟨k, v⟩ := kv
    by_cases hk : k = i
    · subst hk
      by_cases h2 : k = i'
      · subst h2
        simp [setIn, lookupIn]
      · have h3 : ¬ i' = k := fun hh => h2 hh.symm
        simp [setIn, lookupIn, h2, h3]
    · by_cases h2 : k = i'
      · subst h2
        simp [setIn, lookupIn, hk]
      · have h3 : ¬ i' = k := fun hh => h2 hh.symm
        simp [setIn, lookupIn, hk, h2, IH]

/-- Symbol lookup after a store assignment. -/
theorem lookupSym_setHist (h : KlineHistory) (s s' i : String) (l : List Candle) :
    lookupSym (setHist h s i l) s' =
      if s' = s then some (setIn ((lookupSym h s).getD []) i l) else lookupSym h s' := by
  induction h with
  | nil =>
    by_cases hs : s' = s
    · subst hs; simp [setHist, lookupSym]
    · have h2 : ¬ s = s' := fun hh => hs hh.symm
      simp [setHist, lookupSym, hs, h2]
  | cons kv t IH =>
    obtain ⟨k, ih⟩ := kv
    by_cases hk : k = s
    · subst hk
      by_cases h2 : k = s'
      · subst h2
        simp [setHist, lookupSym]
      · have h3 : ¬ s' = k := fun hh => h2 hh.symm
        simp [setHist, lookupSym, h2, h3]
    · by_cases h2 : k = s'
      · subst h2
        simp [setHist, lookupSym, hk]
      · have h3 : ¬ s' = k := fun hh => h2 hh.symm
        simp [setHist, lookupSym, hk, h2, IH]

/-- Cell view of the store as nested lookups. -/
theorem lookupHist_eq (h : KlineHistory) (s i : String) :
    lookupHist h s i = (lookupIn ((lookupSym h s).getD []) i).getD [] := by
  unfold lookupHist
  cases lookupSym h s <;> simp [lookupIn]

/-- Cell lookup after a store assignment: only the assigned cell changes. -/
theorem lookupHist_setHist (h : KlineHistory) (s i s' i' : String) (l : List Candle) :
    lookupHist (setHist h s i l) s' i' =
      if s' = s ∧ i' = i then l else lookupHist h s' i' := by
  rw [lookupHist_eq, lookupHist_eq, lookupSym_setHist]
  by_cases hs : s' = s
  · subst hs
    rw [if_pos rfl]
    simp only [Option.getD_some]
    rw [lookupIn_setIn]
    by_cases hi : i' = i
    · simp [hi]
    · simp [hi]
  · simp [hs]

/-- Unfolded form of processKlineData on a closed-candle message. -/
theorem processKlineData_closed (h : KlineHistory) (m : KlineMsg) (hx : m.x = true) :
    processKlineData h m =
      setHist h m.s m.i
        (if 100 < (lookupHist h m.s m.i).length + 1
          then ((lookupHist h m.s m.i) ++ [(⟨m.c, m.T⟩ : Candle)]).drop ((lookupHist h m.s m.i).length + 1 - 100)
          else (lookupHist h m.s m.i) ++ [(⟨m.c, m.T⟩ : Candle)]) := by
  unfold processKlineData
  rw [if_neg (by simp [hx])]
  simp [List.length_append]

/-- One processing step keeps every cell within the 100-entry cap. -/
theorem processKlineData_bounded (h : KlineHistory) (m : KlineMsg)
    (hb : ∀ s i, (lookupHist h s i).length ≤ 100) :
    ∀ s i, (lookupHist (processKlineData h m) s i).length ≤ 100 := by
  intro s i
  by_cases hx : m.x = true
  · rw [processKlineData_closed h m hx, lookupHist_setHist]
    by_cases hk : s = m.s ∧ i = m.i
    · rw [if_pos hk]
      have hcur := hb m.s m.i
      split_ifs with hlen
      · simp only [List.length_drop, List.length_append, List.length_cons, List.length_nil]
        omega
      · simp only [List.length_append, List.length_cons, List.length_nil]
        omega
    · rw [if_neg hk]; exact hb s i
  · unfold processKlineData
    rw [if_pos (by simpa using hx)]
    exact hb s i

/-- The empty store satisfies the cap. -/
theorem emptyHistory_bounded : ∀ s i, (lookupHist ([] : KlineHistory) s i).length ≤ 100 := by
  intro s i
  simp [lookupHist, lookupSym]

/-- Any fold of processing steps keeps every cell within the cap. -/
theorem foldl_processKlineData_bounded (msgs : List KlineMsg) :
    ∀ h : KlineHistory, (∀ s i, (lookupHist h s i).length ≤ 100) →
      ∀ s i, (lookupHist (msgs.foldl processKlineData h) s i).length ≤ 100 := by
  induction msgs with
  | nil => intro h hb; exact hb
  | cons m t IH =>
    intro h hb
    exact IH _ (processKlineData_bounded h m hb)

/-- C5: starting from an empty Candle History Store, after any sequence of
candle-message processing steps every (symbol, timeframe) history holds at
most 100 entries; an unclosed candle is a no-op; and a closed candle appends
to the cell and, past the cap, keeps exactly the most recent entries in
insertion order (a drop of the oldest ones). -/
theorem candleHistory_bounded :
    (∀ (msgs : List KlineMsg) (s i : String),
      (lookupHist (msgs.foldl processKlineData ([] : KlineHistory)) s i).length ≤ 100) ∧
    (∀ (h : KlineHistory) (m : KlineMsg), m.x = false → processKlineData h m = h) ∧
    (∀ (h : KlineHistory) (m : KlineMsg), m.x = true →
      lookupHist (processKlineData h m) m.s m.i =
        if 100 < (lookupHist h m.s m.i).length + 1
        then ((lookupHist h m.s m.i) ++ [(⟨m.c, m.T⟩ : Candle)]).drop ((lookupHist h m.s m.i).length + 1 - 100)
        else (lookupHist h m.s m.i) ++ [(⟨m.c, m.T⟩ : Candle)]) := by
  refine ⟨?_, ?_, ?_⟩
  · intro msgs s i
    exact foldl_processKlineData_bounded msgs [] emptyHistory_bounded s i
  · intro h m hx
    unfold processKlineData
    rw [if_pos hx]
  · intro h m hx
    rw [processKlineData_closed h m hx, lookupHist_setHist]
    simp

/-- Witness for C5 at a concrete store and messages. -/
theorem candleHistory_bounded_witness :
    processKlineData [] ⟨"BTCUSDT", "1h", 3, 5, false⟩ = [] ∧
    lookupHist (processKlineData [] ⟨"BTCUSDT", "1h", 3, 5, true⟩) "BTCUSDT" "1h" = [⟨3, 5⟩] := by
  constructor
  · exact candleHistory_bounded.2.1 [] ⟨"BTCUSDT", "1h", 3, 5, false⟩ rfl
  · have hch := candleHistory_bounded.2.2 [] ⟨"BTCUSDT", "1h", 3, 5, true⟩ rfl
    simpa [lookupHist, lookupSym] using hch

/- Lemmas about the push-path RSI recomputation. -/

/-- With exactly 14 stored candles and a live price, the per-interval RSI of
the push path is defined. -/
theorem rsiForInterval_defined (ih : IntervalHistory) (i : String) (p : ℚ)
    (hlen : ((lookupIn ih i).getD []).length = 14) :
    (rsiForInterval ih i (some p)).isSome = true := by
  unfold rsiForInterval
  rw [if_pos (by omega)]
  have hc2 : ((((lookupIn ih i).getD []).map (·.close)) ++ [p]).length = 15 := by
    simp [hlen]
  obtain ⟨r, hr, hr0, hr1⟩ := wilderRSI_defined _ (le_of_eq hc2.symm)
  simp only [hr]
  simp [hr0, hr1]

/-- With at most 13 stored candles, the per-interval RSI of the push path
stays absent. -/
theorem rsiForInterval_absent (ih : IntervalHistory) (i : String) (cp : Option ℚ)
    (hlen : ((lookupIn ih i).getD []).length ≤ 13) :
    rsiForInterval ih i cp = none := by
  unfold rsiForInterval
  rw [if_neg (by omega)]

/-- C10: for a symbol and timeframe whose stored history holds exactly 14
closed-candle entries, a ticker carrying a live price yields a defined RSI
for that timeframe (the live price acts as a synthetic 15th close), while
with 13 or fewer stored entries that timeframe's RSI stays absent. -/
theorem pushPath_rsi_threshold (h : KlineHistory) (sym : String) (p : ℚ) :
    ((lookupHist h sym "1h").length = 14 →
      ((getRSIForSymbol h sym (some p)).rsi1h).isSome = true) ∧
    ((lookupHist h sym "1h").length ≤ 13 → (getRSIForSymbol h sym (some p)).rsi1h = none) ∧
    ((lookupHist h sym "4h").length = 14 →
      ((getRSIForSymbol h sym (some p)).rsi4h).isSome = true) ∧
    ((lookupHist h sym "4h").length ≤ 13 → (getRSIForSymbol h sym (some p)).rsi4h = none) ∧
    ((lookupHist h sym "1d").length = 14 →
      ((getRSIForSymbol h sym (some p)).rsi1d).isSome = true) ∧
    ((lookupHist h sym "1d").length ≤ 13 → (getRSIForSymbol h sym (some p)).rsi1d = none) := by
  cases hsym : lookupSym h sym with
  | none =>
    have hlk : ∀ i, lookupHist h sym i = [] := by
      intro i; unfold lookupHist; rw [hsym]
    refine ⟨?_, ?_, ?_, ?_, ?_, ?_⟩ <;> intro hlen <;>
      simp only [hlk] at hlen ⊢ <;>
      simp_all [getRSIForSymbol, hsym]
  | some ih =>
    have hlk : ∀ i, lookupHist h sym i = (lookupIn ih i).getD [] := by
      intro i; unfold lookupHist; rw [hsym]
    have hres : getRSIForSymbol h sym (some p) =
        ⟨rsiForInterval ih "1h" (some p), rsiForInterval ih "4h" (some p),
         rsiForInterval ih "1d" (some p)⟩ := by
      unfold getRSIForSymbol; rw [hsym]
    rw [hres]
    refine ⟨?_, ?_, ?_, ?_, ?_, ?_⟩ <;> intro hlen <;> rw [hlk] at hlen
    · exact rsiForInterval_defined ih "1h" p hlen
    · exact rsiForInterval_absent ih "1h" (some p) hlen
    · exact rsiForInterval_defined ih "4h" p hlen
    · exact rsiForInterval_absent ih "4h" (some p) hlen
    · exact rsiForInterval_defined ih "1d" p hlen
    · exact rsiForInterval_absent ih "1d" (some p) hlen

/-- Witness for C10 at a concrete store with exactly 14 one-hour candles and
no four-hour candles. -/
theorem pushPath_rsi_threshold_witness :
    ((getRSIForSymbol [("XUSDT", [("1h", List.replicate 14 (⟨1, 0⟩ : Candle))])]
        "XUSDT" (some 2)).rsi1h).isSome = true ∧
    (getRSIForSymbol [("XUSDT", [("1h", List.replicate 14 (⟨1, 0⟩ : Candle))])]
        "XUSDT" (some 2)).rsi4h = none :=
  ⟨(pushPath_rsi_threshold [("XUSDT", [("1h", List.replicate 14 (⟨1, 0⟩ : Candle))])]
      "XUSDT" 2).1 (by decide),
   (pushPath_rsi_threshold [("XUSDT", [("1h", List.replicate 14 (⟨1, 0⟩ : Candle))])]
      "XUSDT" 2).2.2.2.1 (by decide)⟩

/- Lemmas about snapshot sorting. -/

/-- The volume of a coin is unchanged by the in-place RSI update. -/
theorem updateCoinRSI_volume (h : KlineHistory) (c : TradingPair) :
    (updateCoinRSI h c).volume24h = c.volume24h :=
  rfl

/-- Inserting an entry whose volume is v puts it in front of every stored
entry of volume v (the skipped prefix has strictly larger volume). -/
theorem orderedInsert_filter_eq (a : TradingPair) (v : ℚ) (ha : a.volume24h = v) :
    ∀ l : List TradingPair,
      (List.orderedInsert volGE a l).filter (fun p => decide (p.volume24h = v)) =
        a :: l.filter (fun p => decide (p.volume24h = v)) := by
  intro l
  induction l with
  | nil => simp [List.orderedInsert, ha]
  | cons b t IH =>
    by_cases hr : volGE a b
    · have hstep : List.orderedInsert volGE a (b :: t) = a :: b :: t := by
        simp [List.orderedInsert, hr]
      rw [hstep, List.filter_cons, if_pos (by simp [ha])]
    · have hbv : ¬ (b.volume24h = v) := by
        unfold volGE at hr
        push_neg at hr
        intro hbv
        rw [hbv, ← ha] at hr
        exact absurd hr (lt_irrefl _)
      have hstep : List.orderedInsert volGE a (b :: t) = b :: List.orderedInsert volGE a t := by
        simp [List.orderedInsert, hr]
      rw [hstep, List.filter_cons, if_neg (by simp [hbv]), IH, List.filter_cons,
        if_neg (by simp [hbv])]

/-- Inserting an entry of a different volume does not disturb the entries of
volume v. -/
theorem orderedInsert_filter_ne (a : TradingPair) (v : ℚ) (ha : ¬ (a.volume24h = v)) :
    ∀ l : List TradingPair,
      (List.orderedInsert volGE a l).filter (fun p => decide (p.volume24h = v)) =
        l.filter (fun p => decide (p.volume24h = v)) := by
  intro l
  induction l with
  | nil => simp [List.orderedInsert, ha]
  | cons b t IH =>
    by_cases hr : volGE a b
    · have hstep : List.orderedInsert volGE a (b :: t) = a :: b :: t := by
        simp [List.orderedInsert, hr]
      rw [hstep, List.filter_cons, if_neg (by simp [ha])]
    · have hstep : List.orderedInsert volGE a (b :: t) = b :: List.orderedInsert volGE a t := by
        simp [List.orderedInsert, hr]
      rw [hstep, List.filter_cons, IH, List.filter_cons]

/-- Stability of the volume sort: within one volume class the store order is
preserved. -/
theorem sortByVolumeDesc_filter_stable (l : List TradingPair) (v : ℚ) :
    (sortByVolumeDesc l).filter (fun p => decide (p.volume24h = v)) =
      l.filter (fun p => decide (p.volume24h = v)) := by
  unfold sortByVolumeDesc
  induction l with
  | nil => rfl
  | cons a t IH =>
    simp only [List.insertionSort]
    by_cases ha : a.volume24h = v
    · rw [orderedInsert_filter_eq a v ha, IH, List.filter_cons, if_pos (by simp [ha])]
    · rw [orderedInsert_filter_ne a v ha, IH, List.filter_cons, if_neg (by simp [ha])]

/-- The second component of the query recompute is the coin list updated
pointwise from the refreshed history (identity when nothing was missing). -/
theorem ensureRSIForCoins_snd (oracle : KlinesOracle) (now : ℤ)
    (coins : List TradingPair) (h : KlineHistory) :
    (ensureRSIForCoins oracle now coins h).2 =
      coins.map (fun c => if needsRSI c = true then
        updateCoinRSI (ensureRSIForCoins oracle now coins h).1 c else c) := by
  unfold ensureRSIForCoins
  by_cases hne : coins.filter needsRSI = []
  · rw [if_pos hne]
    have hall : ∀ c ∈ coins, needsRSI c = false := by
      intro c hc
      by_contra hcc
      have hmem : c ∈ coins.filter needsRSI :=
        List.mem_filter.mpr ⟨hc, by simpa using hcc⟩
      rw [hne] at hmem
      exact absurd hmem (List.not_mem_nil c)
    have hpt : ∀ c ∈ coins, (if needsRSI c = true then updateCoinRSI h c else c) = id c := by
      intro c hc
      rw [if_neg (by simp [hall c hc])]
      rfl
    have hm : coins.map (fun c => if needsRSI c = true then updateCoinRSI h c else c) = coins := by
      rw [List.map_congr_left hpt, List.map_id]
    show (coins : List TradingPair) =
      coins.map (fun c => if needsRSI c = true then updateCoinRSI h c else c)
    exact hm.symm
  · rw [if_neg hne]

/-- The length of a coin list is unchanged by the query recompute. -/
theorem ensureRSIForCoins_length (oracle : KlinesOracle) (now : ℤ)
    (coins : List TradingPair) (h : KlineHistory) :
    ((ensureRSIForCoins oracle now coins h).2).length = coins.length := by
  rw [ensureRSIForCoins_snd, List.length_map]

/-- Volume-descending order survives the query recompute. -/
theorem ensureRSIForCoins_pairwise (oracle : KlinesOracle) (now : ℤ)
    (coins : List TradingPair) (h : KlineHistory)
    (hp : coins.Pairwise volGE) :
    ((ensureRSIForCoins oracle now coins h).2).Pairwise volGE := by
  rw [ensureRSIForCoins_snd, List.pairwise_map]
  refine hp.imp ?_
  intro a b hab
  unfold volGE at hab ⊢
  have hva : (if needsRSI a = true then
      updateCoinRSI (ensureRSIForCoins oracle now coins h).1 a else a).volume24h = a.volume24h := by
    split <;> simp [updateCoinRSI_volume]
  have hvb : (if needsRSI b = true then
      updateCoinRSI (ensureRSIForCoins oracle now coins h).1 b else b).volume24h = b.volume24h := by
    split <;> simp [updateCoinRSI_volume]
  rw [hva, hvb]
  exact hab

/-- Returned list of the spot snapshot query, as the recompute applied to
the sorted, truncated store. -/
theorem getSpotData_snd (oracle : KlinesOracle) (now : ℤ) (st : EngineState) (L : Nat) :
    (getSpotData oracle now st L).2 =
      (ensureRSIForCoins oracle now ((sortByVolumeDesc st.spotData).take L)
        st.klineHistory).2 := by
  unfold getSpotData
  by_cases hin : st.initialized = true <;> simp [hin]

/-- C6 counterexample: the claimed symbol-ascending tie-break does not hold.
With two equal-volume entries stored in the order BBBUSDT, AAAUSDT, the
query returns them in store order, not symbol-ascending order. -/
theorem getSpotData_no_symbol_tiebreak :
    ¬ List.Pairwise claimedSnapshotOrder
        ((getSpotData (fun _ _ => none) 0 ⟨true, [pairBBB, pairAAA], [], []⟩ 2).2) := by
  have h1 : (getSpotData (fun _ _ => none) 0 ⟨true, [pairBBB, pairAAA], [], []⟩ 2).2 =
      [pairBBB, pairAAA] := by decide
  rw [h1]
  intro hp
  have hrel := (List.pairwise_cons.mp hp).1 pairAAA (by simp)
  rcases hrel with hlt | ⟨heq, hle⟩
  · norm_num [pairBBB, pairAAA] at hlt
  · have hns : ¬ (pairBBB.symbol ≤ pairAAA.symbol) := by
      show ¬ (("BBBUSDT" : String) ≤ "AAAUSDT")
      rw [String.le_iff_toList_le]
      decide
    exact hns hle

/-- C6 amended: for every store content and limit L the spot snapshot query
returns at most L entries, sorted by 24h volume descending; the sort is a
permutation of the store and is stable, so entries of equal volume keep the
store's iteration order (there is no symbol tie-break). -/
theorem getSpotData_sorted_limited (oracle : KlinesOracle) (now : ℤ)
    (st : EngineState) (L : Nat) :
    ((getSpotData oracle now st L).2).length ≤ L ∧
    ((getSpotData oracle now st L).2).Pairwise volGE ∧
    (sortByVolumeDesc st.spotData).Perm st.spotData ∧
    (∀ v : ℚ, (sortByVolumeDesc st.spotData).filter (fun p => decide (p.volume24h = v)) =
      st.spotData.filter (fun p => decide (p.volume24h = v))) := by
  refine ⟨?_, ?_, List.perm_insertionSort volGE st.spotData,
    fun v => sortByVolumeDesc_filter_stable _ v⟩
  · rw [getSpotData_snd, ensureRSIForCoins_length]
    exact List.length_take_le L _
  · rw [getSpotData_snd]
    apply ensureRSIForCoins_pairwise
    exact List.Pairwise.sublist (List.take_sublist L _)
      (List.sorted_insertionSort volGE st.spotData)

/- Lemmas about the snapshot query frame. -/

/-- When no listed coin is missing an RSI value, the query recompute is the
identity. -/
theorem ensureRSIForCoins_of_complete (oracle : KlinesOracle) (now : ℤ)
    (coins : List TradingPair) (h : KlineHistory)
    (hall : ∀ c ∈ coins, needsRSI c = false) :
    ensureRSIForCoins oracle now coins h = (h, coins) := by
  unfold ensureRSIForCoins
  have hfil : coins.filter needsRSI = [] := by
    rw [List.filter_eq_nil_iff]
    intro a ha
    simp [hall a ha]
  rw [if_pos hfil]

/-- Spot store of the state returned by the spot snapshot query. -/
theorem getSpotData_fst_spot (oracle : KlinesOracle) (now : ℤ) (st : EngineState) (L : Nat) :
    ((getSpotData oracle now st L).1).spotData =
      st.spotData.map (fun c =>
        if c ∈ (sortByVolumeDesc st.spotData).take L ∧ needsRSI c = true
        then updateCoinRSI
          (ensureRSIForCoins oracle now ((sortByVolumeDesc st.spotData).take L)
            st.klineHistory).1 c
        else c) := by
  unfold getSpotData
  by_cases hin : st.initialized = true <;> simp [hin]

/-- C9 counterexample: the snapshot query is not a pure read.  On an
uninitialized engine with empty stores, getSpotData flips the lifecycle
flag, so the returned state differs from the input state. -/
theorem getSpotData_mutates_state :
    (getSpotData (fun _ _ => none) 0 ⟨false, [], [], []⟩ 50).1 ≠
      (⟨false, [], [], []⟩ : EngineState) := by decide

/-- C9 amended: the snapshot queries are pure reads only under conditions:
when the engine is initialized and every entry of the sorted, truncated
store already has all three RSI values, getSpotData and getFuturesData
leave the state unchanged and return exactly that list; and in general the
entries returned by getSpotData are shared with the store rather than
copies: every returned entry is an entry of the resulting spot store. -/
theorem snapshotQuery_frame (oracle : KlinesOracle) (now : ℤ) (st : EngineState) (L : Nat) :
    (st.initialized = true →
      (∀ c ∈ (sortByVolumeDesc st.spotData).take L, needsRSI c = false) →
      (getSpotData oracle now st L).1 = st ∧
      (getSpotData oracle now st L).2 = (sortByVolumeDesc st.spotData).take L) ∧
    (st.initialized = true →
      (∀ c ∈ (sortByVolumeDesc st.futuresData).take L, needsRSI c = false) →
      (getFuturesData oracle now st L).1 = st ∧
      (getFuturesData oracle now st L).2 = (sortByVolumeDesc st.futuresData).take L) ∧
    (∀ c ∈ (getSpotData oracle now st L).2, c ∈ ((getSpotData oracle now st L).1).spotData) := by
  refine ⟨?_, ?_, ?_⟩
  · intro hinit hall
    unfold getSpotData
    rw [if_pos hinit]
    dsimp only
    rw [ensureRSIForCoins_of_complete oracle now _ _ hall]
    dsimp only
    have hpt : ∀ c ∈ st.spotData,
        (if c ∈ (sortByVolumeDesc st.spotData).take L ∧ needsRSI c = true
         then updateCoinRSI st.klineHistory c else c) = id c := by
      intro c hc
      rw [if_neg]
      · rfl
      · rintro ⟨hmem, hneed⟩
        rw [hall c hmem] at hneed
        exact Bool.false_ne_true hneed
    have hmap : st.spotData.map (fun c =>
        if c ∈ (sortByVolumeDesc st.spotData).take L ∧ needsRSI c = true
        then updateCoinRSI st.klineHistory c else c) = st.spotData := by
      rw [List.map_congr_left hpt, List.map_id]
    refine ⟨?_, rfl⟩
    rw [hmap]
  · intro hinit hall
    unfold getFuturesData
    rw [if_pos hinit]
    dsimp only
    rw [ensureRSIForCoins_of_complete oracle now _ _ hall]
    dsimp only
    have hpt : ∀ c ∈ st.futuresData,
        (if c ∈ (sortByVolumeDesc st.futuresData).take L ∧ needsRSI c = true
         then updateCoinRSI st.klineHistory c else c) = id c := by
      intro c hc
      rw [if_neg]
      · rfl
      · rintro ⟨hmem, hneed⟩
        rw [hall c hmem] at hneed
        exact Bool.false_ne_true hneed
    have hmap : st.futuresData.map (fun c =>
        if c ∈ (sortByVolumeDesc st.futuresData).take L ∧ needsRSI c = true
        then updateCoinRSI st.klineHistory c else c) = st.futuresData := by
      rw [List.map_congr_left hpt, List.map_id]
    refine ⟨?_, rfl⟩
    rw [hmap]
  · intro c hc
    rw [getSpotData_snd, ensureRSIForCoins_snd] at hc
    obtain ⟨c0, hc0, rfl⟩ := List.mem_map.mp hc
    have hc0sorted : c0 ∈ (sortByVolumeDesc st.spotData).take L := hc0
    have hc0spot : c0 ∈ st.spotData :=
      (List.perm_insertionSort volGE st.spotData).subset
        (List.take_subset L _ hc0sorted)
    rw [getSpotData_fst_spot]
    refine List.mem_map.mpr ⟨c0, hc0spot, ?_⟩
    by_cases hn : needsRSI c0 = true
    · rw [if_pos ⟨hc0sorted, hn⟩, if_pos hn]
    · rw [if_neg (by rintro ⟨_, hx⟩; exact hn hx), if_neg hn]

/-- Witness for the C9 frame theorem on an initialized engine whose only
spot entry has complete RSI coverage. -/
theorem snapshotQuery_frame_witness :
    (getSpotData (fun _ _ => none) 0 ⟨true, [pairDone], [], []⟩ 5).1 =
      (⟨true, [pairDone], [], []⟩ : EngineState) ∧
    (getSpotData (fun _ _ => none) 0 ⟨true, [pairDone], [], []⟩ 5).2 =
      (sortByVolumeDesc [pairDone]).take 5 :=
  (snapshotQuery_frame (fun _ _ => none) 0 ⟨true, [pairDone], [], []⟩ 5).1 rfl (by decide)

/- Lemmas about the subscription rebalancer. -/

/-- With enough fuel, the chunks concatenate back to the input list. -/
theorem chunk30Go_flatten : ∀ (n : Nat) (l : List String), l.length ≤ n →
    (chunk30Go n l).flatten = l := by
  intro n
  induction n with
  | zero =>
    intro l hl
    have : l = [] := List.eq_nil_of_length_eq_zero (Nat.le_zero.mp hl)
    subst this
    rfl
  | succ m IH =>
    intro l hl
    cases l with
    | nil => rfl
    | cons x xs =>
      have hd : ((x :: xs).drop 30).length ≤ m := by
        rw [List.length_drop]
        simp only [List.length_cons] at hl ⊢
        omega
      show (x :: xs).take 30 ++ (chunk30Go m ((x :: xs).drop 30)).flatten = x :: xs
      rw [IH _ hd, List.take_append_drop]

/-- The stream groups concatenate back to the stream list. -/
theorem chunk30_flatten (l : List String) : (chunk30 l).flatten = l :=
  chunk30Go_flatten l.length l le_rfl

/-- Every chunk holds at most 30 identifiers. -/
theorem chunk30Go_length_le : ∀ (n : Nat) (l : List String),
    ∀ g ∈ chunk30Go n l, g.length ≤ 30 := by
  intro n
  induction n with
  | zero =>
    intro l g hg
    cases l <;> simp [chunk30Go] at hg
  | succ m IH =>
    intro l g hg
    cases l with
    | nil => simp [chunk30Go] at hg
    | cons x xs =>
      rcases List.mem_cons.mp hg with h | h
      · subst h
        exact List.length_take_le 30 _
      · exact IH _ g h

/-- Every group of the partition holds at most 30 identifiers. -/
theorem chunk30_length_le (l : List String) : ∀ g ∈ chunk30 l, g.length ≤ 30 :=
  chunk30Go_length_le l.length l

/-- A group list whose occurrence counts of s sum to one has exactly one
group containing s. -/
theorem countP_eq_one_of_count_sum_one (s : String) :
    ∀ gs : List (List String), (gs.map (fun g => g.count s)).sum = 1 →
      gs.countP (fun g => decide (s ∈ g)) = 1 := by
  intro gs
  induction gs with
  | nil => intro h; simp at h
  | cons g t IH =>
    intro hsum
    simp only [List.map_cons, List.sum_cons] at hsum
    by_cases hg : g.count s = 0
    · have hnot : ¬ (s ∈ g) := by
        intro hmem
        have := List.count_pos_iff.mpr hmem
        omega
      rw [List.countP_cons, if_neg (by simp [hnot])]
      apply IH
      omega
    · have hmem : s ∈ g := by
        apply List.count_pos_iff.mp
        omega
      have hrest : (t.map (fun g => g.count s)).sum = 0 := by omega
      have ht : t.countP (fun g => decide (s ∈ g)) = 0 := by
        rw [List.countP_eq_zero]
        intro g2 hg2
        have hz : g2.count s = 0 := by
          have := (List.sum_eq_zero_iff).mp hrest (g2.count s)
            (List.mem_map.mpr ⟨g2, hg2, rfl⟩)
          exact this
        simp only [decide_eq_true_eq]
        intro hmem2
        have := List.count_pos_iff.mpr hmem2
        omega
      rw [List.countP_cons, if_pos (by simp [hmem]), ht]


/-- C4: one rebalance pass.  When the deduplicated union of the two top-15
lists equals the Active Subscription Set under the manager's set-equality
test, no candle connection is closed or opened; when the union is nonempty
and differs, the groups are rebuilt from the first 10 union symbols with
three timeframe streams each, partitioned into groups of at most 30 stream
identifiers whose concatenation is exactly the stream list, and (when the
stream identifiers are distinct) every identifier lies in exactly one
group. -/
theorem rebalance_pass (spot futures : List TradingPair) (st : RebalanceState)
    (u : List String)
    (hu : u = setUnionList (topSymbolsByVolume spot ++ topSymbolsByVolume futures)) :
    (setsEqual st.currentTopSymbols u = true →
      updateKlineStreamsBasedOnVolume spot futures st = st) ∧
    (u ≠ [] → setsEqual st.currentTopSymbols u = false →
      (updateKlineStreamsBasedOnVolume spot futures st).currentTopSymbols = u ∧
      (updateKlineStreamsBasedOnVolume spot futures st).klineGroups =
        chunk30 (klineStreamsFor u) ∧
      ((updateKlineStreamsBasedOnVolume spot futures st).klineGroups).flatten =
        klineStreamsFor u ∧
      (∀ g ∈ (updateKlineStreamsBasedOnVolume spot futures st).klineGroups,
        g.length ≤ 30) ∧
      ((klineStreamsFor u).Nodup → ∀ s ∈ klineStreamsFor u,
        ((updateKlineStreamsBasedOnVolume spot futures st).klineGroups).countP
          (fun g => decide (s ∈ g)) = 1)) := by
  constructor
  · intro heq
    unfold updateKlineStreamsBasedOnVolume
    rw [← hu]
    by_cases h0 : u.length = 0
    · rw [if_pos h0]
    · rw [if_neg h0, if_pos heq]
  · intro hne hneq
    have hlen : ¬ (u.length = 0) := by
      intro h0
      exact hne (List.length_eq_zero.mp h0)
    have hupd : updateKlineStreamsBasedOnVolume spot futures st =
        { currentTopSymbols := u, klineGroups := chunk30 (klineStreamsFor u) } := by
      unfold updateKlineStreamsBasedOnVolume
      rw [← hu, if_neg hlen, if_neg (by simp [hneq])]
      unfold connectKlineStreamsForSymbols
      rw [if_neg hne]
    rw [hupd]
    refine ⟨rfl, rfl, chunk30_flatten _, chunk30_length_le _, ?_⟩
    intro hnd s hs
    apply countP_eq_one_of_count_sum_one
    have hcount : (klineStreamsFor u).count s = 1 := by
      have hle := List.nodup_iff_count_le_one.mp hnd s
      have hpos := List.count_pos_iff.mpr hs
      omega
    have hflat := chunk30_flatten (klineStreamsFor u)
    calc ((chunk30 (klineStreamsFor u)).map (fun g => g.count s)).sum
        = ((chunk30 (klineStreamsFor u)).flatten).count s := (List.count_flatten s _).symm
      _ = (klineStreamsFor u).count s := by rw [hflat]
      _ = 1 := hcount

/-- Witness for C4 at concrete inputs: an unchanged empty union on one hand
and a single-symbol change on the other. -/
theorem rebalance_pass_witness :
    updateKlineStreamsBasedOnVolume [] [] ⟨[], []⟩ = (⟨[], []⟩ : RebalanceState) ∧
    (updateKlineStreamsBasedOnVolume [pairBTC] [] ⟨[], []⟩).currentTopSymbols = ["BTCUSDT"] ∧
    ((updateKlineStreamsBasedOnVolume [pairBTC] [] ⟨[], []⟩).klineGroups).flatten =
      klineStreamsFor ["BTCUSDT"] :=
  ⟨(rebalance_pass [] [] ⟨[], []⟩ [] (by decide)).1 (by decide),
   ((rebalance_pass [pairBTC] [] ⟨[], []⟩ ["BTCUSDT"] (by decide)).2
      (by decide) (by decide)).1,
   ((rebalance_pass [pairBTC] [] ⟨[], []⟩ ["BTCUSDT"] (by decide)).2
      (by decide) (by decide)).2.2.1⟩

/- Theorems about the reconnect supervisor and the signal classifier. -/

/-- C1 (code bug): the reconnect delay is not the claimed per-connection
exponential backoff.  Three consecutive failed opens of the spot ticker
connection from a fresh manager schedule delays 1000, 2000, 2000 rather
than doubling per consecutive failure (the exponent is the size of the
shared pending-timeout map, which stays at one once the connection's entry
is set), so the third delay matches neither min(1000 * 2^2, 30000) nor
min(1000 * 2^3, 30000); and the delay is not independent of the other
connection: with a futures-ticker timeout pending, the spot delay scheduled
right after a successful spot open is 2000, not the initial 1000. -/
theorem reconnect_backoff_not_exponential :
    (runEvents [ConnEvent.close "spot-ticker", ConnEvent.close "spot-ticker",
        ConnEvent.close "spot-ticker"]).2 = [1000, 2000, 2000] ∧
    ¬ ((2000 : Nat) = min (1000 * 2 ^ 2) 30000) ∧
    ¬ ((2000 : Nat) = min (1000 * 2 ^ 3) 30000) ∧
    (runEvents [ConnEvent.close "futures-ticker", ConnEvent.close "spot-ticker",
        ConnEvent.openOk "spot-ticker", ConnEvent.close "spot-ticker"]).2 =
      [1000, 2000, 2000] ∧
    ¬ ((2000 : Nat) = 1000) := by decide

/-- C2 (code bug): an oscillator value of exactly 0 is classified NEUTRAL,
exactly like an absent value — the truthy guard conflates zero with absent —
whereas the claim requires STRONG_BUY for every defined value up to 20. -/
theorem oscillator_zero_not_strong_buy :
    getRSISignal (some 0) = Signal.NEUTRAL ∧
    getRSISignal none = Signal.NEUTRAL ∧
    Signal.NEUTRAL ≠ Signal.STRONG_BUY := by decide

/-- C3 counterexample: the defined input 0 is classified NEUTRAL although it
does not lie in the band between 30 and 70, refuting the sentence that
30 < x < 70 is the only NEUTRAL band arising from a defined value. -/
theorem classify_neutral_band_cex :
    getRSISignal (some 0) = Signal.NEUTRAL ∧ ¬ ((30:ℚ) < 0 ∧ (0:ℚ) < 70) := by decide

/-- C3 amended: the boundary table holds as stated (20 STRONG_BUY, 20.01
BUY, 30 BUY, 30.01 NEUTRAL, 69.99 NEUTRAL, 70 SELL, 79.99 SELL, 80
STRONG_SELL, absent NEUTRAL), and for a defined input x the classifier
returns NEUTRAL exactly when x = 0 or 30 < x < 70: the truthy zero check
adds x = 0 to the NEUTRAL band. -/
theorem classifySignal_boundary_amended :
    getRSISignal (some 20) = Signal.STRONG_BUY ∧
    getRSISignal (some (2001/100)) = Signal.BUY ∧
    getRSISignal (some 30) = Signal.BUY ∧
    getRSISignal (some (3001/100)) = Signal.NEUTRAL ∧
    getRSISignal (some (6999/100)) = Signal.NEUTRAL ∧
    getRSISignal (some 70) = Signal.SELL ∧
    getRSISignal (some (7999/100)) = Signal.SELL ∧
    getRSISignal (some 80) = Signal.STRONG_SELL ∧
    getRSISignal none = Signal.NEUTRAL ∧
    (∀ x : ℚ, getRSISignal (some x) = Signal.NEUTRAL ↔ (x = 0 ∨ (30 < x ∧ x < 70))) := by
  refine ⟨?_, ?_, ?_, ?_, ?_, ?_, ?_, ?_, rfl, ?_⟩
  · norm_num [getRSISignal]
  · norm_num [getRSISignal]
  · norm_num [getRSISignal]
  · norm_num [getRSISignal]
  · norm_num [getRSISignal]
  · norm_num [getRSISignal]
  · norm_num [getRSISignal]
  · norm_num [getRSISignal]
  · intro x
    simp only [getRSISignal]
    split_ifs with h0 h20 h30 h80 h70
    · simp [h0]
    · constructor
      · intro hs; exact absurd hs (by decide)
      · rintro (rfl | ⟨h1, _⟩)
        · exact absurd rfl h0
        · linarith
    · constructor
      · intro hs; exact absurd hs (by decide)
      · rintro (rfl | ⟨h1, _⟩)
        · exact absurd rfl h0
        · linarith
    · constructor
      · intro hs; exact absurd hs (by decide)
      · rintro (rfl | ⟨_, h2⟩)
        · exact absurd rfl h0
        · linarith
    · constructor
      · intro hs; exact absurd hs (by decide)
      · rintro (rfl | ⟨_, h2⟩)
        · exact absurd rfl h0
        · linarith
    · push_neg at h20 h30 h80 h70
      simp only [true_iff]
      right
      constructor <;> linarith
